import Mathlib

/-!
Shallow embedding of the `gcs-upload` bulk uploader, for checking its
natural-language specification.

The repository ships several near-duplicate variants of the same program:

* `main.go` (two concatenated revisions sharing the same task body),
* an older revision (here called "V0") in which the success counter is
  incremented only inside the verbose branch and the remote object name is
  built from the full URL path (keeping its leading slash), and
* a list-file revision ("V1") adding `-l` / `-d` target selection and a
  list-file shuffler.

Pure helpers (`path.Clean`, `path.Join`, `filepath.ToSlash`,
`strings.HasSuffix`, `strconv.ParseUint`, `bytesValue.Set`) are embedded as
executable Lean functions over `List Char` / `String`.  The per-file upload
goroutine body is embedded as a function from the task's external I/O
outcome to a result record carrying the I/O event trace, the returned
error, the shared counter, and the emitted log lines; the `errgroup` run
loop is a fold over those tasks threading the cancellation flag.
-/

namespace GcsUpload

/-! ## Go string and path helpers -/

/-- Split a character list on a separator character, Go
`strings.Split(s, "/")` style: `"a//b" ↦ ["a", "", "b"]`. -/
def splitOnChar (sep : Char) : List Char → List (List Char)
  | [] => [[]]
  | c :: cs =>
    match splitOnChar sep cs with
    | [] => [[]]
    | r :: rs => if c = sep then [] :: r :: rs else (c :: r) :: rs

/-- Interleave a separator character between chunks (inverse direction of
`splitOnChar`), as used to rebuild a cleaned path. -/
def joinWithChar (sep : Char) : List (List Char) → List Char
  | [] => []
  | [c] => c
  | c :: cs => c ++ sep :: joinWithChar sep cs

/-- One step of the `path.Clean` component stack: empty and `.` components
are dropped, `..` pops a non-`..` stack top (or is kept when unrooted and
nothing is left to pop; dropped entirely when rooted), and any other
component is pushed.  `acc` is the stack with its top in front. -/
def cleanStep (rooted : Bool) (acc : List (List Char)) (c : List Char) :
    List (List Char) :=
  if c = [] ∨ c = ['.'] then acc
  else if c = ['.', '.'] then
    match acc with
    | [] => if rooted then [] else [['.', '.']]
    | a :: rest => if a = ['.', '.'] then c :: a :: rest else rest
  else c :: acc

/-- Reattach the root and map an empty cleaned body back to `/` or `.`,
the tail end of `path.Clean`. -/
def bodyToPath (rooted : Bool) (body : List Char) : List Char :=
  if rooted then '/' :: body
  else if body = [] then ['.'] else body

/-- Process the slash-split components of a path through the `..`/`.`
stack and reassemble. -/
def cleanCore (rooted : Bool) (comps : List (List Char)) : List Char :=
  bodyToPath rooted (joinWithChar '/' ((comps.foldl (cleanStep rooted) []).reverse))

/-- Go `path.Clean` on a character list: lexically remove `.` and empty
components, resolve `..` against earlier components, keep the rooted `/`,
and return `.` for an empty result of an unrooted input. -/
def cleanL : List Char → List Char
  | [] => ['.']
  | c :: cs => cleanCore (c == '/') (splitOnChar '/' (c :: cs))

/-- Go `path.Clean` on strings. -/
def cleanS (s : String) : String := String.mk (cleanL s.data)

/-- Go `path.Join(a, b)` (and, on a Unix host, `filepath.Join(a, b)`):
empty elements contribute nothing up front, the concatenation is cleaned.
When both elements are empty the result is the empty string. -/
def pathJoin (a b : String) : String :=
  if a = "" ∧ b = "" then ""
  else if a = "" then cleanS b
  else cleanS (String.mk (a.data ++ '/' :: b.data))

/-- Go `filepath.ToSlash`, parameterised by the host path separator
`filepath.Separator`: every separator character is replaced by `/`
(`strings.ReplaceAll(path, string(Separator), "/")` for a one-character
separator). -/
def toSlash (sep : Char) (s : String) : String :=
  String.mk (s.data.map fun c => if c = sep then '/' else c)

/-- Go `s[1:]` on an ASCII string, used by `run` as `dest.Path[1:]`. -/
def dropFirst (s : String) : String := String.mk (s.data.drop 1)

/-- Remote object key of `main.go` and the list-file revision:
`name := path.Join(dest.Path[1:], filepath.ToSlash(f))`. -/
def remoteKey (sep : Char) (destPath f : String) : String :=
  pathJoin (dropFirst destPath) (toSlash sep f)

/-- Remote object key of the V0 revision:
`name := path.Join(dest.Path, filepath.ToSlash(f))` (no `[1:]`, so the
leading slash of the URL path is kept). -/
def remoteKeyV0 (sep : Char) (destPath f : String) : String :=
  pathJoin destPath (toSlash sep f)

/-- Left-pad with spaces to the given width, the behaviour of Go's
`fmt` verb `%*d` on a non-negative count (no truncation when the
rendered number is wider). -/
def padLeft (w : Nat) (s : String) : String :=
  String.mk (List.replicate (w - s.length) ' ' ++ s.data)

/-- Left-pad with zeros to the given width (Go's `%0*d`); the spec's
"zero-padded running count" reading, used only for comparison. -/
def zeroPad (w : Nat) (s : String) : String :=
  String.mk (List.replicate (w - s.length) '0' ++ s.data)

/-- Does `needle` occur as a prefix of `hay`? -/
def startsWithL : List Char → List Char → Bool
  | [], _ => true
  | _ :: _, [] => false
  | n :: ns, h :: hs => n = h && startsWithL ns hs

/-- Does `needle` occur as a contiguous substring of `hay`? -/
def containsSub (needle : List Char) : List Char → Bool
  | [] => startsWithL needle []
  | h :: hs => startsWithL needle (h :: hs) || containsSub needle hs

/-- Substring test on strings. -/
def isSubstr (needle hay : String) : Bool := containsSub needle.data hay.data

/-! ## The per-file upload task

The `errgroup` goroutine body of `run` (identical in both `main.go`
revisions and in the list-file revision apart from the log width):

```
select { case <-ctx.Done(): return nil; default: }
r, err := os.Open(...);  if err != nil { return ... }
defer r.Close()
name := path.Join(dest.Path[1:], filepath.ToSlash(f))
w := o.NewWriter(ctx); defer w.Close()
buf := uploadBufPool.Get().([]byte); defer uploadBufPool.Put(buf)
if _, err := io.CopyBuffer(w, r, buf); err != nil { return ... }
if err := w.Close(); err != nil { return ... }
c := count.Add(1)
if *gcInterval > 0 && int(c)%*gcInterval == 0 { runtime.GC() }
if *verbose { log.Printf("%*d: -> %s: %s", countWidth, c, ...) }
return nil
```

The surrounding world decides which of the fallible steps fails; that
choice is the task's `IOOutcome`.  The task is embedded as a function
producing the ordered trace of external effects it performs (deferred
calls run in reverse order at return), the error it returns, the new
value of the shared atomic counter, and the log lines it emits.  The
atomic `count.Add(1)` is modelled as sequential state passing, which is
faithful for counting since the increment is atomic in the source. -/

/-- External effects a task can perform, in trace order. -/
inductive Ev
  | openLocal   -- os.Open (attempt)
  | openRemote  -- o.NewWriter
  | acquireBuf  -- uploadBufPool.Get
  | copyBytes   -- io.CopyBuffer
  | closeRemote -- w.Close (explicit or deferred)
  | releaseBuf  -- uploadBufPool.Put (deferred)
  | closeLocal  -- r.Close (deferred)
  | gcPass      -- runtime.GC
  | logWrite    -- log.Printf
deriving DecidableEq

/-- Which fallible step of the task body fails, decided by the outside
world (filesystem and object store). -/
inductive IOOutcome
  | openFailed | copyFailed | closeFailed | ok
deriving DecidableEq

/-- The flag and destination context a task reads. -/
structure TaskEnv where
  verbose : Bool
  gcInterval : Int     -- the -gc flag (Go int)
  countWidth : Nat     -- len(strconv.Itoa(len(files)))
  bucket : String      -- dest.Hostname()
  destPath : String    -- dest.Path, with its leading slash
  elapsed : String     -- opaque rendering of the per-file wall time
deriving DecidableEq

/-- What one task run produced. -/
structure TaskResult where
  events : List Ev
  err : Option String
  count : Int          -- shared counter after the task
  logs : List String
  gcRan : Bool
deriving DecidableEq

/-- The verbose per-file line
`log.Printf("%*d: -> %s: %s", countWidth, c, "gs://"+path.Join(o.BucketName(), o.ObjectName()), elapsed)`. -/
def logLineFmt (width : Nat) (c : Int) (bucket key elapsed : String) : String :=
  padLeft width (toString c) ++ ": -> " ++ ("gs://" ++ pathJoin bucket key) ++
    ": " ++ elapsed

/-- The `main.go` task body (see the block comment above). -/
def uploadTask (env : TaskEnv) (cancelled : Bool) (count : Int) (f : String)
    (oc : IOOutcome) : TaskResult :=
  if cancelled then ⟨[], none, count, [], false⟩
  else
    match oc with
    | .openFailed => ⟨[.openLocal], some "open upload file", count, [], false⟩
    | .copyFailed =>
        ⟨[.openLocal, .openRemote, .acquireBuf, .copyBytes,
          .releaseBuf, .closeRemote, .closeLocal],
         some "upload", count, [], false⟩
    | .closeFailed =>
        ⟨[.openLocal, .openRemote, .acquireBuf, .copyBytes, .closeRemote,
          .releaseBuf, .closeRemote, .closeLocal],
         some "close writer", count, [], false⟩
    | .ok =>
        let c := count + 1
        let gcRan := decide (0 < env.gcInterval ∧ Int.tmod c env.gcInterval = 0)
        let key := remoteKey '/' env.destPath f
        ⟨[.openLocal, .openRemote, .acquireBuf, .copyBytes, .closeRemote]
           ++ (if gcRan then [.gcPass] else [])
           ++ (if env.verbose then [.logWrite] else [])
           ++ [.releaseBuf, .closeRemote, .closeLocal],
         none, c,
         if env.verbose then
           [logLineFmt env.countWidth c env.bucket key env.elapsed]
         else [],
         gcRan⟩

/-- The V0 revision's task body: same control flow, but the remote name
keeps the URL path's leading slash, there is no GC hook, and
`count.Add(1)` happens inside the `if *verbose` log call, so the counter
moves only when verbose reporting is on. -/
def uploadTaskV0 (env : TaskEnv) (cancelled : Bool) (count : Int) (f : String)
    (oc : IOOutcome) : TaskResult :=
  if cancelled then ⟨[], none, count, [], false⟩
  else
    match oc with
    | .openFailed => ⟨[.openLocal], some "open upload file", count, [], false⟩
    | .copyFailed =>
        ⟨[.openLocal, .openRemote, .acquireBuf, .copyBytes,
          .releaseBuf, .closeRemote, .closeLocal],
         some "upload", count, [], false⟩
    | .closeFailed =>
        ⟨[.openLocal, .openRemote, .acquireBuf, .copyBytes, .closeRemote,
          .releaseBuf, .closeRemote, .closeLocal],
         some "close writer", count, [], false⟩
    | .ok =>
        let key := remoteKeyV0 '/' env.destPath f
        ⟨[.openLocal, .openRemote, .acquireBuf, .copyBytes, .closeRemote]
           ++ (if env.verbose then [.logWrite] else [])
           ++ [.releaseBuf, .closeRemote, .closeLocal],
         none,
         if env.verbose then count + 1 else count,
         if env.verbose then
           [logLineFmt env.countWidth (count + 1) env.bucket key env.elapsed]
         else [],
         false⟩

/-! ## The run loop over the work list

`eg.Go` submissions are folded sequentially: once some task has returned
an error, the `errgroup` context is cancelled, and every later task's
admission check observes it. -/

/-- Shared state threaded through the submission loop. -/
structure RunSt where
  count : Int
  cancelled : Bool
deriving DecidableEq

/-- Submit one work item. -/
def runStep (env : TaskEnv) (st : RunSt) (t : String × IOOutcome) : RunSt :=
  let r := uploadTask env st.cancelled st.count t.1 t.2
  ⟨r.count, st.cancelled || r.err.isSome⟩

/-- The `main.go` upload loop over the enumerated file list. -/
def runUploads (env : TaskEnv) (ts : List (String × IOOutcome)) : RunSt :=
  ts.foldl (runStep env) ⟨0, false⟩

/-- Submit one work item, V0 task body. -/
def runStepV0 (env : TaskEnv) (st : RunSt) (t : String × IOOutcome) : RunSt :=
  let r := uploadTaskV0 env st.cancelled st.count t.1 t.2
  ⟨r.count, st.cancelled || r.err.isSome⟩

/-- The V0 revision's upload loop. -/
def runUploadsV0 (env : TaskEnv) (ts : List (String × IOOutcome)) : RunSt :=
  ts.foldl (runStepV0 env) ⟨0, false⟩

/-- A concrete environment with verbose reporting off. -/
def quietEnv : TaskEnv := ⟨false, 0, 1, "bucket", "/prefix", "1s"⟩

/-- The Windows host path separator, `filepath.Separator` on Windows. -/
def winSep : Char := '\\'

/-! ## C1: counter vs. number of enumerated files -/

/-- Folding an all-successful work list from any starting counter adds
exactly the number of files, and never cancels. -/
theorem runUploads_ok_from (env : TaskEnv) (fs : List String) (c0 : Int) :
    (fs.map fun f => (f, IOOutcome.ok)).foldl (runStep env) ⟨c0, false⟩ =
      ⟨c0 + fs.length, false⟩ := by
  induction fs generalizing c0 with
  | nil => simp
  | cons f fs ih =>
    have h1 : runStep env ⟨c0, false⟩ (f, IOOutcome.ok) = ⟨c0 + 1, false⟩ := by
      simp [runStep, uploadTask]
    simp only [List.map_cons, List.foldl_cons, h1, ih]
    congr 1
    simp only [List.length_cons]
    push_cast
    ring

/-- C1 (amended): in the `main.go` task body the shared counter is
incremented by exactly one on every successful upload, regardless of the
verbose flag, and a fatal-error-free run over an enumerated file list
ends with the counter equal to the number of files.  (The claim as
stated fails for the V0 revision, where the increment sits inside the
verbose branch; see the counterexample.) -/
theorem c1_counter_equals_enumerated :
    ∀ (env : TaskEnv) (fs : List String),
      (runUploads env (fs.map fun f => (f, IOOutcome.ok))).count = fs.length ∧
      ∀ (c : Int) (f : String),
        (uploadTask env false c f IOOutcome.ok).count = c + 1 := by
  intro env fs
  constructor
  · unfold runUploads
    rw [runUploads_ok_from env fs 0]
    simp
  · intro c f
    simp [uploadTask]

/-- C1 counterexample: in the V0 revision with verbose reporting off, a
run over one file whose upload fully succeeds ends with the counter at 0,
not at the number of enumerated files (1). -/
theorem c1_counterexample :
    (runUploadsV0 quietEnv [("a.txt", IOOutcome.ok)]).count = 0 ∧
      (runUploadsV0 quietEnv [("a.txt", IOOutcome.ok)]).count ≠ 1 := by
  decide

/-! ## C2: remote object key -/

/-- Separator normalisation is idempotent: re-normalising an
already-normalised path changes nothing. -/
theorem toSlash_invol (sep : Char) (s : String) :
    toSlash sep (toSlash sep s) = toSlash sep s := by
  unfold toSlash
  congr 1
  show List.map _ (List.map _ s.data) = _
  rw [List.map_map]
  have hf : ((fun c => if c = sep then '/' else c) ∘
      fun c => if c = sep then '/' else c) = fun c => if c = sep then '/' else c := by
    funext c
    by_cases hc : c = sep
    · simp [hc, Function.comp]
    · simp [hc, Function.comp]
  rw [hf]

/-- C2 (amended): in `main.go` and the list-file revision the remote key
is the destination URL path without its leading slash joined with the
slash-normalised relative path — on a Windows host a backslash path and
its forward-slash equivalent produce the identical key, and the scenario
files map to `prefix/a.txt`, `prefix/b/c.txt`, `prefix/d.bin`.  In the V0
revision the leading slash is kept (`/prefix/a.txt`), so the claim's
"without a leading slash" fails there; see the counterexample. -/
theorem c2_remote_key :
    (∀ (dp p : String),
        remoteKey winSep dp p = remoteKey winSep dp (toSlash winSep p)) ∧
      remoteKey '/' "/prefix" "a.txt" = "prefix/a.txt" ∧
      remoteKey '/' "/prefix" "b/c.txt" = "prefix/b/c.txt" ∧
      remoteKey '/' "/prefix" "d.bin" = "prefix/d.bin" ∧
      remoteKey winSep "/prefix" "b\\c.txt" = "prefix/b/c.txt" ∧
      remoteKeyV0 '/' "/prefix" "a.txt" = "/prefix/a.txt" := by
  refine ⟨?_, by decide, by decide, by decide, by decide, by decide⟩
  intro dp p
  unfold remoteKey
  rw [toSlash_invol winSep p]

/-- C2 counterexample: the V0 revision builds the key from the full URL
path, so for destination path `/prefix` and file `a.txt` the key is
`/prefix/a.txt`, which is not the claimed `prefix/a.txt`. -/
theorem c2_counterexample :
    remoteKeyV0 '/' "/prefix" "a.txt" = "/prefix/a.txt" ∧
      remoteKeyV0 '/' "/prefix" "a.txt" ≠ "prefix/a.txt" := by
  decide

/-! ## C4: admission check under a set cancellation signal -/

/-- C4: in every revision, a task whose admission `select` observes the
group context already cancelled returns `nil` at once: it performs no
external effect at all (no open, no write, no buffer traffic), reports no
error, leaves the shared counter untouched, and logs nothing — whatever
the outside world would have answered to its I/O. -/
theorem c4_cancelled_task_is_silent :
    ∀ (env : TaskEnv) (c : Int) (f : String) (oc : IOOutcome),
      uploadTask env true c f oc = ⟨[], none, c, [], false⟩ ∧
        uploadTaskV0 env true c f oc = ⟨[], none, c, [], false⟩ := by
  intro env c f oc
  exact ⟨rfl, rfl⟩

/-! ## C7: periodic memory reclamation -/

/-- C7: on a successful upload the `runtime.GC` hook fires exactly when
the configured interval is positive and the freshly incremented shared
counter is divisible by it (Go's truncated `%`); with the interval at 0
it never fires, and no failing or cancelled task ever fires it. -/
theorem c7_gc_interval :
    ∀ (env : TaskEnv) (c : Int) (f : String),
      ((uploadTask env false c f IOOutcome.ok).gcRan = true ↔
          0 < env.gcInterval ∧ Int.tmod (c + 1) env.gcInterval = 0) ∧
        (Ev.gcPass ∈ (uploadTask env false c f IOOutcome.ok).events ↔
          0 < env.gcInterval ∧ Int.tmod (c + 1) env.gcInterval = 0) ∧
        (env.gcInterval = 0 →
          (uploadTask env false c f IOOutcome.ok).gcRan = false) ∧
        (uploadTask env false c f IOOutcome.openFailed).gcRan = false ∧
        (uploadTask env false c f IOOutcome.copyFailed).gcRan = false ∧
        (uploadTask env false c f IOOutcome.closeFailed).gcRan = false ∧
        (∀ oc, (uploadTask env true c f oc).gcRan = false) := by
  intro env c f
  refine ⟨?_, ?_, ?_, rfl, rfl, rfl, fun _ => rfl⟩
  · simp [uploadTask]
  · by_cases hgc : 0 < env.gcInterval ∧ Int.tmod (c + 1) env.gcInterval = 0 <;>
      by_cases hv : env.verbose = true <;>
        simp_all [uploadTask]
  · intro h0
    simp [uploadTask, h0]

/-- A concrete environment with the reclamation interval set to 2. -/
def gcEnv : TaskEnv := ⟨false, 2, 1, "bucket", "/prefix", "1s"⟩

/-- C7 witness: with interval 2 the second completed upload triggers a
reclamation pass, and with interval 0 the first does not. -/
theorem c7_witness :
    (uploadTask gcEnv false 1 "a.txt" IOOutcome.ok).gcRan = true ∧
      (uploadTask quietEnv false 0 "a.txt" IOOutcome.ok).gcRan = false :=
  ⟨(c7_gc_interval gcEnv 1 "a.txt").1.mpr (by decide),
    (c7_gc_interval quietEnv 0 "a.txt").2.2.1 rfl⟩

/-! ## C8: the verbose per-success log line -/

/-- A concrete verbose environment: 10 enumerated files give count width
`len(strconv.Itoa(10)) = 2`. -/
def verboseEnv : TaskEnv := ⟨true, 0, 2, "bucket", "/prefix", "2ms"⟩

/-- C8 (amended): with verbose reporting on, every successful upload
emits exactly one structured line — the running count left-padded with
SPACES to the width of the total file count (`%*d`), the fully-qualified
`gs://bucket/key` destination, and the per-file elapsed time; with
verbose off, and on every failing or cancelled task, nothing is logged.
(The claim's "zero-padded" is wrong; see the counterexample.) -/
theorem c8_verbose_log_line :
    ∀ (env : TaskEnv) (c : Int) (f : String),
      (uploadTask env false c f IOOutcome.ok).logs =
        (if env.verbose then
          [logLineFmt env.countWidth (c + 1) env.bucket
            (remoteKey '/' env.destPath f) env.elapsed]
         else []) ∧
      (uploadTask env false c f IOOutcome.ok).logs.length =
        (if env.verbose then 1 else 0) ∧
      (uploadTask env false c f IOOutcome.openFailed).logs = [] ∧
      (uploadTask env false c f IOOutcome.copyFailed).logs = [] ∧
      (uploadTask env false c f IOOutcome.closeFailed).logs = [] ∧
      (∀ oc, (uploadTask env true c f oc).logs = []) := by
  intro env c f
  refine ⟨?_, ?_, rfl, rfl, rfl, fun _ => rfl⟩
  · simp [uploadTask]
  · by_cases hv : env.verbose = true <;> simp_all [uploadTask]

/-- C8 counterexample: with 10 files (count width 2) the first success is
logged as `" 1: -> ..."` — the count is space-padded by `%*d`, and the
zero-padded form `"01"` the claim requires appears nowhere in the line. -/
theorem c8_counterexample :
    (toString (10 : Nat)).length = 2 ∧
      (uploadTask verboseEnv false 0 "a.txt" IOOutcome.ok).logs =
        [" 1: -> gs://bucket/prefix/a.txt: 2ms"] ∧
      zeroPad 2 (toString (1 : Int)) = "01" ∧
      isSubstr "01" " 1: -> gs://bucket/prefix/a.txt: 2ms" = false := by
  decide

/-! ## C5: buffer pool checkout discipline

`heldEnd` is the net number of pool buffers a trace leaves checked out;
`bufDiscipline` replays a trace against the task's single-buffer
ownership protocol: a task never acquires while already holding, never
releases without holding, and ends not holding. -/

/-- Buffer-pool effect of one event. -/
def heldDelta : Ev → Int
  | .acquireBuf => 1
  | .releaseBuf => -1
  | _ => 0

/-- Net buffers left checked out by a trace. -/
def heldEnd : List Ev → Int
  | [] => 0
  | e :: es => heldDelta e + heldEnd es

/-- Replay a trace from a holding state and check the single-buffer
protocol, requiring the buffer to be back in the pool at the end. -/
def bufDiscipline : Bool → List Ev → Bool
  | holding, [] => !holding
  | holding, .acquireBuf :: es => !holding && bufDiscipline true es
  | holding, .releaseBuf :: es => holding && bufDiscipline false es
  | holding, _ :: es => bufDiscipline holding es

/-- Numeric value of a holding state. -/
def bval : Bool → Int
  | true => 1
  | false => 0

/-- A protocol-respecting trace holds between 0 and 1 buffers at every
instant (i.e. after every prefix of the trace). -/
theorem bufDiscipline_bound :
    ∀ (evs : List Ev) (h : Bool), bufDiscipline h evs = true →
      ∀ p, p <+: evs → 0 ≤ bval h + heldEnd p ∧ bval h + heldEnd p ≤ 1 := by
  intro evs
  induction evs with
  | nil =>
    intro h hd p hp
    rw [List.prefix_nil.mp hp]
    cases h <;> simp [bval, heldEnd]
  | cons e es ih =>
    intro h hd p hp
    cases p with
    | nil => cases h <;> simp [bval, heldEnd]
    | cons q p' =>
      obtain ⟨t, ht⟩ := hp
      injection ht with h1 h2
      subst h1
      have hp' : p' <+: es := ⟨t, h2⟩
      cases q
      case acquireBuf =>
        simp only [bufDiscipline, Bool.and_eq_true, Bool.not_eq_true'] at hd
        obtain ⟨hh, hrec⟩ := hd
        subst hh
        have hb := ih true hrec p' hp'
        simp only [heldEnd, heldDelta, bval] at hb ⊢
        omega
      case releaseBuf =>
        simp only [bufDiscipline, Bool.and_eq_true] at hd
        obtain ⟨hh, hrec⟩ := hd
        subst hh
        have hb := ih false hrec p' hp'
        simp only [heldEnd, heldDelta, bval] at hb ⊢
        omega
      all_goals
        simp only [bufDiscipline] at hd
        have hb := ih h hd p' hp'
        simp only [heldEnd, heldDelta] at hb ⊢
        cases h <;> simp only [bval] at hb ⊢ <;> omega

/-- A protocol-respecting trace returns every buffer it took: the net
checkout at the end cancels the initial holding state. -/
theorem bufDiscipline_net :
    ∀ (evs : List Ev) (h : Bool), bufDiscipline h evs = true →
      bval h + heldEnd evs = 0 := by
  intro evs
  induction evs with
  | nil =>
    intro h hd
    simp only [bufDiscipline, Bool.not_eq_true'] at hd
    subst hd
    simp [bval, heldEnd]
  | cons e es ih =>
    intro h hd
    cases e
    case acquireBuf =>
      simp only [bufDiscipline, Bool.and_eq_true, Bool.not_eq_true'] at hd
      obtain ⟨hh, hrec⟩ := hd
      subst hh
      have hb := ih true hrec
      simp only [heldEnd, heldDelta, bval] at hb ⊢
      omega
    case releaseBuf =>
      simp only [bufDiscipline, Bool.and_eq_true] at hd
      obtain ⟨hh, hrec⟩ := hd
      subst hh
      have hb := ih false hrec
      simp only [heldEnd, heldDelta, bval] at hb ⊢
      omega
    all_goals
      simp only [bufDiscipline] at hd
      have hb := ih h hd
      simp only [heldEnd, heldDelta] at hb ⊢
      cases h <;> simp only [bval] at hb ⊢ <;> omega

/-- Every task trace of the `main.go` body respects the single-buffer
protocol: on the success path and on both the copy-error and
finalize-error paths the deferred `uploadBufPool.Put` runs before the
task returns, and paths that never reach `Get` never release. -/
theorem uploadTask_discipline (env : TaskEnv) (cl : Bool) (c : Int)
    (f : String) (oc : IOOutcome) :
    bufDiscipline false (uploadTask env cl c f oc).events = true := by
  cases cl
  · cases oc
    case ok =>
      by_cases hgc : (0 < env.gcInterval ∧ Int.tmod (c + 1) env.gcInterval = 0) <;>
        by_cases hv : env.verbose = true <;>
          simp [uploadTask, hgc, hv, bufDiscipline]
    all_goals rfl
  · rfl

/-- With each in-flight task having run an arbitrary prefix of its trace,
the total number of checked-out buffers is at most the number of tasks. -/
theorem heldSum_le_card (ps : List (List Ev))
    (hm : ∀ p ∈ ps, ∃ env cl c f oc,
      p <+: (uploadTask env cl c f oc).events) :
    (ps.map heldEnd).sum ≤ (ps.length : Int) := by
  induction ps with
  | nil => simp
  | cons p ps ih =>
    have hone : heldEnd p ≤ 1 := by
      obtain ⟨env, cl, c, f, oc, hp⟩ := hm p (List.mem_cons_self p ps)
      have hb := bufDiscipline_bound _ false
        (uploadTask_discipline env cl c f oc) p hp
      simp only [bval] at hb
      omega
    have hrest := ih fun q hq => hm q (List.mem_cons_of_mem p hq)
    simp only [List.map_cons, List.sum_cons, List.length_cons]
    push_cast
    omega

/-- C5: every task that acquires a pool buffer releases it on every exit
path before returning (its trace respects the single-buffer protocol and
leaves a net of zero buffers checked out), and consequently, at any
moment at which at most `n` tasks are in flight — each having executed
some prefix of its trace, as the concurrency limiter guarantees — the
number of checked-out buffers is at most `n`. -/
theorem c5_buffer_pool :
    (∀ (env : TaskEnv) (cl : Bool) (c : Int) (f : String) (oc : IOOutcome),
        bufDiscipline false (uploadTask env cl c f oc).events = true ∧
          heldEnd (uploadTask env cl c f oc).events = 0) ∧
      ∀ (ps : List (List Ev)) (n : Nat), ps.length ≤ n →
        (∀ p ∈ ps, ∃ env cl c f oc,
          p <+: (uploadTask env cl c f oc).events) →
        (ps.map heldEnd).sum ≤ (n : Int) := by
  constructor
  · intro env cl c f oc
    refine ⟨uploadTask_discipline env cl c f oc, ?_⟩
    have hn := bufDiscipline_net _ false (uploadTask_discipline env cl c f oc)
    simp only [bval] at hn
    omega
  · intro ps n hlen hm
    calc (ps.map heldEnd).sum ≤ (ps.length : Int) := heldSum_le_card ps hm
      _ ≤ (n : Int) := by exact_mod_cast hlen

/-- C5 witness: two concurrency slots, one in-flight task paused right
after its `uploadBufPool.Get` — at most 2 buffers are checked out. -/
theorem c5_witness :
    ([[Ev.openLocal, Ev.openRemote, Ev.acquireBuf]].map heldEnd).sum ≤
      (2 : Int) := by
  apply c5_buffer_pool.2 _ 2 (by decide)
  intro p hp
  simp only [List.mem_singleton] at hp
  subst hp
  exact ⟨quietEnv, false, 0, "a.txt", IOOutcome.copyFailed,
    [Ev.copyBytes, Ev.releaseBuf, Ev.closeRemote, Ev.closeLocal], rfl⟩

/-! ## C3: shuffling is a permutation

`shuffleListFile` reads the list file's lines into `files` and runs

```
rand.Shuffle(len(files), func(i, j int) {
    files[i], files[j] = files[j], files[i]
})
```

`rand.Shuffle` is the Fisher–Yates downward pass: for `i = n-1, …, 1` it
draws `j = pick(i) ∈ [0, i]` and calls `swap(i, j)`.  The random draws
are abstracted as an arbitrary function `pick`. -/

/-- The swap callback `files[i], files[j] = files[j], files[i]`. -/
def swapGo (l : List String) (i j : Nat) : List String :=
  match l[i]?, l[j]? with
  | some a, some b => (l.set i b).set j a
  | _, _ => l

/-- The `for i := n - 1; i > 0; i--` loop of `rand.Shuffle`; the argument
is the current loop index `i`. -/
def shuffleAux (pick : Nat → Nat) : Nat → List String → List String
  | 0, l => l
  | i + 1, l => shuffleAux pick i (swapGo l (i + 1) (pick (i + 1)))

/-- `rand.Shuffle(len(files), swap)` on the list of lines. -/
def randShuffle (pick : Nat → Nat) (l : List String) : List String :=
  shuffleAux pick (l.length - 1) l

/-- Setting index `n` trades the old element's contribution to any
count for the new element's. -/
theorem count_set_trade (x b : String) :
    ∀ (l : List String) (n : Nat), n < l.length →
      (l.set n b).count x + (if l[n]? = some x then 1 else 0)
        = l.count x + (if b = x then 1 else 0) := by
  intro l
  induction l with
  | nil => intro n h; simp at h
  | cons a l ih =>
    intro n h
    cases n with
    | zero =>
      simp only [List.set_cons_zero, List.getElem?_cons_zero, List.count_cons,
        Option.some.injEq]
      by_cases hax : a = x <;> by_cases hbx : b = x <;>
        simp [hax, hbx, beq_iff_eq]
    | succ m =>
      have hm : m < l.length := by simpa using h
      have hrec := ih m hm
      simp only [List.set_cons_succ, List.getElem?_cons_succ, List.count_cons]
      by_cases hax : a = x <;> simp [hax, beq_iff_eq] <;> omega

/-- One Go swap is a permutation. -/
theorem swapGo_perm (l : List String) (i j : Nat) :
    List.Perm (swapGo l i j) l := by
  unfold swapGo
  split
  next a b hi hj =>
    have hilt : i < l.length := (List.getElem?_eq_some_iff.mp hi).1
    have hjlt : j < l.length := (List.getElem?_eq_some_iff.mp hj).1
    apply List.perm_iff_count.mpr
    intro x
    by_cases hij : i = j
    · subst hij
      have hab : a = b := by
        rw [hi] at hj
        exact Option.some.inj hj
      subst hab
      rw [List.set_set]
      have := count_set_trade x a l i hilt
      by_cases hax : a = x <;> simp [hi, hax] at this ⊢ <;> exact this
    · have e1 : ((l.set i b).set j a).count x + (if (l.set i b)[j]? = some x then 1 else 0)
          = (l.set i b).count x + (if a = x then 1 else 0) :=
        count_set_trade x a (l.set i b) j (by simpa using hjlt)
      have e2 : (l.set i b).count x + (if l[i]? = some x then 1 else 0)
          = l.count x + (if b = x then 1 else 0) :=
        count_set_trade x b l i hilt
      rw [List.getElem?_set_ne hij, hj] at e1
      rw [hi] at e2
      by_cases hax : a = x <;> by_cases hbx : b = x <;>
        simp [hax, hbx] at e1 e2 ⊢ <;> omega
  next => exact List.Perm.refl l

/-- Every Fisher–Yates pass is a permutation. -/
theorem shuffleAux_perm (pick : Nat → Nat) :
    ∀ (fuel : Nat) (l : List String),
      List.Perm (shuffleAux pick fuel l) l
  | 0, l => List.Perm.refl l
  | i + 1, l =>
    List.Perm.trans (shuffleAux_perm pick i (swapGo l (i + 1) (pick (i + 1))))
      (swapGo_perm l (i + 1) (pick (i + 1)))

/-- C3: for every work list and every sequence of random draws, the
shuffle produces a permutation of the same elements — the multiset of
relative paths is unchanged (every path keeps its exact multiplicity, so
nothing is duplicated or lost, and the length is preserved); only the
order differs. -/
theorem c3_shuffle_is_permutation :
    ∀ (l : List String) (pick : Nat → Nat),
      List.Perm (randShuffle pick l) l ∧
        ((randShuffle pick l : List String) : Multiset String) =
          (l : Multiset String) ∧
        (∀ x, (randShuffle pick l).count x = l.count x) ∧
        (randShuffle pick l).length = l.length := by
  intro l pick
  have hp : List.Perm (randShuffle pick l) l := shuffleAux_perm pick _ l
  exact ⟨hp, Multiset.coe_eq_coe.mpr hp, fun x => hp.count_eq x, hp.length_eq⟩

/-! ## C9: the byte-size flag parser never panics

```
func (b *bytesValue) Set(s string) error {
    x := strings.ToLower(s)
    for _, u := range bytesUnits {
        if !strings.HasSuffix(x, u.suffix) { continue }
        v, err := strconv.ParseUint(strings.TrimSuffix(x, u.suffix), 10, 64)
        if err != nil { return fmt.Errorf("parse(%s): %w", s, err) }
        *b = bytesValue(v * u.value)
        return nil
    }
    panic("unreachable")
}
```

Falling off the loop — the `panic` — is modelled as `none`; the two
`return` statements are `some (.ok _)` / `some (.error _)`. -/

/-- Go `strings.HasSuffix`. -/
def hasSuffix (s suf : String) : Bool := suf.data.isSuffixOf s.data

/-- Go `strings.TrimSuffix`: cut the suffix off when present, otherwise
return the string unchanged. -/
def trimSuffix (s suf : String) : String :=
  if hasSuffix s suf then String.mk (s.data.take (s.data.length - suf.data.length))
  else s

/-- ASCII fragment of `strings.ToLower` (the unit suffixes are ASCII, so
this is the only part the parser's control flow can observe). -/
def asciiLower (c : Char) : Char :=
  if 'A' ≤ c ∧ c ≤ 'Z' then Char.ofNat (c.toNat + 32) else c

/-- Go `strings.ToLower` on an ASCII model. -/
def goToLower (s : String) : String := String.mk (s.data.map asciiLower)

/-- Accumulate decimal digits. -/
def digitsToNat (l : List Char) : Nat :=
  l.foldl (fun acc c => acc * 10 + (c.toNat - '0'.toNat)) 0

/-- Go `strconv.ParseUint(s, 10, 64)`: the empty string and any
non-digit character are syntax errors, a digit string above the 64-bit
range is a range error, anything else parses. -/
def parseUint64 (s : String) : Except String Nat :=
  if s.data = [] then .error "invalid syntax"
  else if s.data.all (fun c => decide ('0' ≤ c ∧ c ≤ '9')) then
    let v := digitsToNat s.data
    if v < 2 ^ 64 then .ok v else .error "value out of range"
  else .error "invalid syntax"

/-- The `bytesUnits` table, in source order; the final entry has the
empty suffix. -/
def bytesUnits : List (String × Nat) :=
  [("m", 1024 * 1024), ("k", 1024), ("mb", 1024 * 1024), ("kb", 1024),
   ("b", 1), ("", 1)]

/-- The unit loop of `bytesValue.Set`; `none` is the `panic`
 branch after the loop, and `v * u.value` wraps at 64 bits. -/
def bytesSetLoop : List (String × Nat) → String → Option (Except String Nat)
  | [], _ => none
  | u :: rest, x =>
    if hasSuffix x u.1 then
      match parseUint64 (trimSuffix x u.1) with
      | .error e => some (.error e)
      | .ok v => some (.ok (v * u.2 % 2 ^ 64))
    else bytesSetLoop rest x

/-- `bytesValue.Set` (the returned error is modelled unwrapped; the
source wraps it as `parse(s): ...`). -/
def bytesValueSet (s : String) : Option (Except String Nat) :=
  bytesSetLoop bytesUnits (goToLower s)

/-- The empty suffix matches every string. -/
theorem hasSuffix_empty (x : String) : hasSuffix x "" = true := by
  unfold hasSuffix
  exact List.isSuffixOf_nil_left

/-- The unit loop returns before falling off whenever some entry's
suffix matches. -/
theorem bytesSetLoop_total :
    ∀ (units : List (String × Nat)) (x : String),
      (∃ u ∈ units, hasSuffix x u.1 = true) →
      (bytesSetLoop units x).isSome = true := by
  intro units
  induction units with
  | nil =>
    intro x h
    obtain ⟨u, hu, _⟩ := h
    simp at hu
  | cons u rest ih =>
    intro x h
    by_cases hs : hasSuffix x u.1 = true
    · unfold bytesSetLoop
      rw [if_pos hs]
      cases parseUint64 (trimSuffix x u.1) <;> rfl
    · obtain ⟨w, hw, hws⟩ := h
      have hwr : w ∈ rest := by
        rcases List.mem_cons.mp hw with h1 | h1
        · exact absurd (h1 ▸ hws) hs
        · exact h1
      unfold bytesSetLoop
      rw [if_neg hs]
      exact ih x ⟨w, hwr, hws⟩

/-- C9: `bytesValue.Set` is total — for every input string the
empty-suffix entry of the unit table matches at the latest, so the loop
always returns (a parsed value, or a parse error from the numeric
prefix) and `panic("unreachable")` is indeed unreachable; e.g. `16M`
parses to 16 MiB and a junk string yields a syntax error, not a panic. -/
theorem c9_set_never_panics :
    (∀ s : String, (bytesValueSet s).isSome = true) ∧
      bytesValueSet "16M" = some (Except.ok 16777216) ∧
      bytesValueSet "zzz" = some (Except.error "invalid syntax") := by
  refine ⟨?_, rfl, rfl⟩
  intro s
  exact bytesSetLoop_total bytesUnits (goToLower s)
    ⟨("", 1), by simp [bytesUnits], hasSuffix_empty _⟩

/-! ## The list-file revision's `run` ("V1")

Flag parsing yields the configuration; the collaborators (URL parser,
filesystem walk, list file, object store, random source) are oracles in
`WorldV1`.  `runV1` follows the statement order of the source `run`:
argument count check, `-l`/`-d` selection checks, destination parse and
scheme checks, then `writeListFile` (under `-d`), `shuffleListFile`
(under `-shuffle`), `openFile`, and the scanner loop submitting one task
per line. -/

/-- The V1 flag set (after `flag.Parse`). -/
structure CfgV1 where
  nargs : Nat
  verbose : Bool
  gcInterval : Int
  shuffle : Bool
  listFilePath : String
  dir : String
deriving DecidableEq

/-- Oracles for the V1 run's collaborators. -/
structure WorldV1 where
  destOk : Bool                    -- url.ParseRequestURI succeeds
  destScheme : String
  destHost : String
  destPath : String
  walk : Except String (List String)  -- writeListFile enumeration
  listLines : List String             -- lines of the -l list file
  openOk : Bool                       -- openFile succeeds
  pick : Nat → Nat                    -- rand.Shuffle draws
  ocs : Nat → IOOutcome               -- per-task I/O outcomes
  elapsed : String

/-- Run-level I/O performed by `runV1`, in order. -/
inductive RunEv
  | wroteList                          -- writeListFile temp file
  | shuffledList                       -- shuffleListFile temp file
  | openedList                         -- openFile
  | task (f : String) (evs : List Ev)  -- one submitted upload task
deriving DecidableEq

/-- The `for listFileScanner.Scan()` submission loop: one task per line
(blank lines included — the scanner yields them and the loop has no
filter), threading counter and cancellation. -/
def scanLoop (env : TaskEnv) (ocs : Nat → IOOutcome) (ls : List String)
    (evs : List RunEv) : List RunEv × RunSt :=
  let out := ls.foldl
    (fun (acc : List RunEv × RunSt × Nat) (f : String) =>
      let r := uploadTask env acc.2.1.cancelled acc.2.1.count f (ocs acc.2.2)
      (acc.1 ++ [RunEv.task f r.events],
        ⟨r.count, acc.2.1.cancelled || r.err.isSome⟩, acc.2.2 + 1))
    (evs, ⟨0, false⟩, 0)
  (out.1, out.2.1)

/-- The V1 `run`, returning its error, the run-level I/O trace, and the
final shared state. -/
def runV1 (cfg : CfgV1) (w : WorldV1) : Option String × List RunEv × RunSt :=
  if cfg.nargs ≠ 1 then (some "invalid args", [], ⟨0, false⟩)
  else if cfg.listFilePath = "" ∧ cfg.dir = "" then
    (some "target not found: please use either -l or -d", [], ⟨0, false⟩)
  else if cfg.listFilePath ≠ "" ∧ cfg.dir ≠ "" then
    (some "cannot use both -l and -d", [], ⟨0, false⟩)
  else if w.destOk = false then (some "parse dest", [], ⟨0, false⟩)
  else if w.destScheme ≠ "gs" then
    (some "dest must start with gs://", [], ⟨0, false⟩)
  else
    match (if cfg.dir ≠ "" then w.walk else .ok w.listLines) with
    | .error e =>
        (some ("write list file: " ++ e),
          if cfg.dir ≠ "" then [RunEv.wroteList] else [], ⟨0, false⟩)
    | .ok ls0 =>
      let evs0 := if cfg.dir ≠ "" then [RunEv.wroteList] else []
      let ls1 := if cfg.shuffle then randShuffle w.pick ls0 else ls0
      let evs1 := evs0 ++ (if cfg.shuffle then [RunEv.shuffledList] else [])
      if w.openOk = false then (some "open list file", evs1, ⟨0, false⟩)
      else
        let env : TaskEnv :=
          ⟨cfg.verbose, cfg.gcInterval, 7, w.destHost, w.destPath, w.elapsed⟩
        let res := scanLoop env w.ocs ls1 (evs1 ++ [RunEv.openedList])
        (if res.2.cancelled then some "uploads" else none, res.1, res.2)

/-- C6: with the positional argument present, supplying neither `-l` nor
`-d` (resp. both) makes `run` return the corresponding configuration
error with an empty I/O trace — before any I/O has begun — and no upload
task is ever submitted unless exactly one of the two was supplied. -/
theorem c6_exactly_one_target :
    ∀ (cfg : CfgV1) (w : WorldV1), cfg.nargs = 1 →
      ((cfg.listFilePath = "" ∧ cfg.dir = "") →
        runV1 cfg w =
          (some "target not found: please use either -l or -d", [], ⟨0, false⟩)) ∧
      ((cfg.listFilePath ≠ "" ∧ cfg.dir ≠ "") →
        runV1 cfg w = (some "cannot use both -l and -d", [], ⟨0, false⟩)) ∧
      (∀ f tevs, RunEv.task f tevs ∈ (runV1 cfg w).2.1 →
        ((cfg.listFilePath ≠ "" ∧ cfg.dir = "") ∨
          (cfg.listFilePath = "" ∧ cfg.dir ≠ ""))) := by
  intro cfg w h
  refine ⟨?_, ?_, ?_⟩
  · intro hA
    simp [runV1, h, hA.1, hA.2]
  · intro hB
    simp [runV1, h, hB.1, hB.2]
  · intro f tevs hmem
    by_cases hA : cfg.listFilePath = "" ∧ cfg.dir = ""
    · simp [runV1, h, hA.1, hA.2] at hmem
    · by_cases hB : cfg.listFilePath ≠ "" ∧ cfg.dir ≠ ""
      · simp [runV1, h, hB.1, hB.2] at hmem
      · tauto

/-- A V1 configuration with the destination argument but no target
selection at all. -/
def cfgNeither : CfgV1 := ⟨1, false, 0, false, "", ""⟩

/-- A V1 configuration with both `-l` and `-d` supplied. -/
def cfgBoth : CfgV1 := ⟨1, false, 0, false, "list.txt", "data"⟩

/-- A trivial world for the V1 run. -/
def worldTriv : WorldV1 :=
  ⟨true, "gs", "bucket", "/prefix", Except.ok [], [], true, id,
    fun _ => IOOutcome.ok, "1s"⟩

/-- C6 witness: with neither target the run reports the `target not
found` error with no I/O, and with both targets the `cannot use both`
error with no I/O. -/
theorem c6_witness :
    runV1 cfgNeither worldTriv =
      (some "target not found: please use either -l or -d", [], ⟨0, false⟩) ∧
      runV1 cfgBoth worldTriv =
        (some "cannot use both -l and -d", [], ⟨0, false⟩) :=
  ⟨(c6_exactly_one_target cfgNeither worldTriv rfl).1 ⟨rfl, rfl⟩,
    (c6_exactly_one_target cfgBoth worldTriv rfl).2.1 (by decide)⟩

/-! ## C10: blank list-file lines are not skipped

The scanner loop submits a task for `f = ""` like for any other line;
that task opens `filepath.Join(*dir, "")` and uploads to
`path.Join(dest.Path[1:], "")`. -/

/-- The per-line task parameters of the V1 scan loop: local path
`filepath.Join(*dir, f)` and remote key
`path.Join(dest.Path[1:], filepath.ToSlash(f))`. -/
def taskParams (dir dp f : String) : String × String :=
  (pathJoin dir f, remoteKey '/' dp f)

/-- All tasks created from the scanned lines, in order. -/
def taskList (dir dp : String) (lines : List String) : List (String × String) :=
  lines.map (taskParams dir dp)

/-- `splitOnChar` never returns the empty list. -/
theorem splitOnChar_ne_nil (sep : Char) (l : List Char) :
    splitOnChar sep l ≠ [] := by
  cases l with
  | nil => simp [splitOnChar]
  | cons c cs =>
    unfold splitOnChar
    split
    · simp
    · split <;> simp

/-- A trailing separator contributes one empty component. -/
theorem splitOnChar_append_sep (sep : Char) :
    ∀ l : List Char, splitOnChar sep (l ++ [sep]) = splitOnChar sep l ++ [[]] := by
  intro l
  induction l with
  | nil => simp [splitOnChar]
  | cons c cs ih =>
    show splitOnChar sep (c :: (cs ++ [sep])) = _
    unfold splitOnChar
    rw [ih]
    cases hs : splitOnChar sep cs with
    | nil => exact absurd hs (splitOnChar_ne_nil sep cs)
    | cons r rs => by_cases hc : c = sep <;> simp [hc]

/-- A trailing empty component is dropped by the component stack. -/
theorem cleanCore_append_empty (rooted : Bool) (comps : List (List Char)) :
    cleanCore rooted (comps ++ [[]]) = cleanCore rooted comps := by
  unfold cleanCore
  rw [List.foldl_append]
  simp [cleanStep]

/-- `path.Clean` ignores a trailing slash on a non-empty path. -/
theorem cleanL_append_slash (c : Char) (cs : List Char) :
    cleanL ((c :: cs) ++ ['/']) = cleanL (c :: cs) := by
  have h : splitOnChar '/' (c :: (cs ++ ['/'])) =
      splitOnChar '/' (c :: cs) ++ [[]] :=
    splitOnChar_append_sep '/' (c :: cs)
  simp only [List.cons_append, cleanL]
  rw [h, cleanCore_append_empty]

/-- `path.Join(a, "")` is `Clean(a)` for non-empty `a`. -/
theorem pathJoin_empty_right (a : String) (h : a ≠ "") :
    pathJoin a "" = cleanS a := by
  obtain ⟨d⟩ := a
  cases d with
  | nil => exact absurd rfl h
  | cons c cs =>
    unfold pathJoin
    rw [if_neg fun hh => h hh.1, if_neg h]
    show String.mk (cleanL ((c :: cs) ++ ['/'])) = String.mk (cleanL (c :: cs))
    rw [cleanL_append_slash]

/-- C10: the scan loop creates a task for every line, blank lines
included — the task list is as long as the line list, a blank line's
task targets `filepath.Join(dir, "")` locally (which is `Clean(dir)`,
i.e. the directory itself, for non-empty `dir`, and the empty path when
only `-l` was given so `dir` is empty) and uploads to
`path.Join(prefix, "")` — the destination prefix alone, as the sample
`/prefix` shows. -/
theorem c10_blank_lines_not_skipped :
    ∀ (dir dp : String) (lines : List String),
      (taskList dir dp lines).length = lines.length ∧
      (∀ i : Nat, lines[i]? = some "" →
        (taskList dir dp lines)[i]? =
          some (pathJoin dir "", pathJoin (dropFirst dp) "")) ∧
      pathJoin "" "" = "" ∧
      (∀ a : String, a ≠ "" → pathJoin a "" = cleanS a) ∧
      pathJoin (dropFirst "/prefix") "" = "prefix" := by
  intro dir dp lines
  refine ⟨List.length_map _ _, ?_, rfl, pathJoin_empty_right, by decide⟩
  intro i hi
  simp only [taskList, List.getElem?_map, hi]
  rfl

/-- C10 witness: in `["a.txt", "", "b.txt"]` the blank second line still
yields a task, whose local path is the source directory itself and whose
remote key is the destination prefix alone. -/
theorem c10_witness :
    (taskList "data" "/prefix" ["a.txt", "", "b.txt"]).length = 3 ∧
      (taskList "data" "/prefix" ["a.txt", "", "b.txt"])[1]? =
        some (pathJoin "data" "", pathJoin (dropFirst "/prefix") "") ∧
      pathJoin "data" "" = "data" ∧
      pathJoin (dropFirst "/prefix") "" = "prefix" := by
  have h := c10_blank_lines_not_skipped "data" "/prefix" ["a.txt", "", "b.txt"]
  refine ⟨h.1, h.2.1 1 rfl, ?_, h.2.2.2.2⟩
  rw [h.2.2.2.1 "data" (by decide)]
  decide

end GcsUpload
